import Mathlib

/-!
Verification of the framebuffer drawing core of `wasabi_learn_os`
(`src/graphics.rs`, with the text writer of `src/main.rs`).

The pixel surface (`trait Bitmap` / `VramBufferInfo`) is modelled as a
structure holding the geometry fields and the backing store.  The store is
modelled at 32-bit-word granularity: the source addresses the byte
`(y * pixels_per_line + x) * bytes_per_pixel` with `bytes_per_pixel = 4`
and every access is an aligned `u32` read or write, so word index
`y * pixels_per_line + x` is the faithful unit of addressing (aliasing
between distinct coordinate pairs that map to the same word index is
preserved by this model).  Colors are `u32` values, modelled as `Nat`.

Rust's `i64` arithmetic is modelled on `Int` (the drawing core never
overflows in the claims' scope); Rust integer division truncates toward
zero, modelled by `Int.tdiv`.  Fallible operations (`Result<()>` on a
`&mut` surface) are modelled by explicit state passing: each returns the
updated surface together with `Except String Unit`.
-/

namespace WasabiGraphics

structure Surface where
  width : Int
  height : Int
  pixels_per_line : Int
  buf : Int → Nat

/-- The `u32` stored for coordinate pair `(x, y)`: word index
`y * pixels_per_line + x`, as in `unchecked_pixel_at_mut`. -/
def Surface.pixel (s : Surface) (x y : Int) : Nat :=
  s.buf (y * s.pixels_per_line + x)

/-- `Bitmap::is_in_x_range`: `0 <= px && px < min(width, pixels_per_line)`. -/
def is_in_x_range (s : Surface) (px : Int) : Bool :=
  decide (0 ≤ px) && decide (px < min s.width s.pixels_per_line)

/-- `Bitmap::is_in_y_range`: `0 <= py && py < height`. -/
def is_in_y_range (s : Surface) (py : Int) : Bool :=
  decide (0 ≤ py) && decide (py < s.height)

/-- `unchecked_draw_point`: store `color` at word index
`y * pixels_per_line + x`, with no range check. -/
def unchecked_draw_point (s : Surface) (color : Nat) (x y : Int) : Surface :=
  { s with buf := fun i => if i = y * s.pixels_per_line + x then color else s.buf i }

/-- `draw_point`: write through `pixel_at_mut`, which performs both range
checks and yields `Err("Out of Range")` when either fails. -/
def draw_point (s : Surface) (color : Nat) (x y : Int) : Surface × Except String Unit :=
  if is_in_x_range s x && is_in_y_range s y then
    (unchecked_draw_point s color x y, Except.ok ())
  else
    (s, Except.error "Out of Range")

/-- `let _ = draw_point(...)`: perform the bounds-checked draw and discard
the `Result`, keeping whatever surface state it left. -/
def draw_point_ignore (s : Surface) (color : Nat) (x y : Int) : Surface :=
  (draw_point s color x y).1

/-- Rust's half-open range `a..b`: the `(b - a)` consecutive integers from
`a` (empty when `b <= a`). `intRangeAux n a` lists `a, a+1, ..., a+n-1`. -/
def intRangeAux : Nat → Int → List Int
  | 0, _ => []
  | n + 1, a => a :: intRangeAux n (a + 1)

def intRange (a b : Int) : List Int :=
  intRangeAux (b - a).toNat a

/-- `fill_rect`: validate the top-left and bottom-right corners, then fill
the rectangle row by row through the unchecked fast path. -/
def fill_rect (s : Surface) (color : Nat) (px py w h : Int) : Surface × Except String Unit :=
  if !(is_in_x_range s px) || !(is_in_y_range s py)
      || !(is_in_x_range s (px + w - 1)) || !(is_in_y_range s (py + h - 1)) then
    (s, Except.error "Out of Range")
  else
    ((intRange py (py + h)).foldl
      (fun s y => (intRange px (px + w)).foldl
        (fun s x => unchecked_draw_point s color x y) s) s,
     Except.ok ())

/-- `calc_slope_point`: interpolated minor-axis offset for major-axis index
`ia`; Rust `/` truncates toward zero (`Int.tdiv`). -/
def calc_slope_point (da db ia : Int) : Option Int :=
  if da < db then
    none
  else if da = 0 then
    some 0
  else if 0 ≤ ia ∧ ia ≤ da then
    some (Int.tdiv (Int.tdiv (2 * db * ia + da) da) 2)
  else
    none

/-- The point list the `draw_line` loop iterates over: indices `0..da` on
the major axis, paired with the interpolated minor offset, as produced by
`(0..da).flat_map(|ia| calc_slope_point(da, db, ia).map(...))`.  Pairs are
`(rx, ry)`. -/
def line_points (x0 y0 x1 y1 : Int) : List (Int × Int) :=
  let dx := |x1 - x0|
  let dy := |y1 - y0|
  if dx ≥ dy then
    (intRange 0 dx).filterMap (fun rx => (calc_slope_point dx dy rx).map (fun ry => (rx, ry)))
  else
    (intRange 0 dy).filterMap (fun ry => (calc_slope_point dy dx ry).map (fun rx => (rx, ry)))

/-- The body of `draw_line`'s loop: each point goes through the
bounds-checked `draw_point`, and `?` propagates its error, stopping the
loop. -/
def draw_line_loop (color : Nat) (x0 y0 sx sy : Int) :
    Surface → List (Int × Int) → Surface × Except String Unit
  | s, [] => (s, Except.ok ())
  | s, p :: ps =>
    match draw_point s color (x0 + p.1 * sx) (y0 + p.2 * sy) with
    | (s', Except.ok _) => draw_line_loop color x0 y0 sx sy s' ps
    | (s', Except.error e) => (s', Except.error e)

/-- A skip-semantics variant of the loop: a point rejected by the bounds
check is dropped and plotting continues. -/
def draw_line_loop_skip (color : Nat) (x0 y0 sx sy : Int) :
    Surface → List (Int × Int) → Surface
  | s, [] => s
  | s, p :: ps =>
    draw_line_loop_skip color x0 y0 sx sy
      (draw_point_ignore s color (x0 + p.1 * sx) (y0 + p.2 * sy)) ps

/-- `draw_line`: validate all four endpoint coordinates, then walk the
major axis plotting interpolated points. -/
def draw_line (s : Surface) (color : Nat) (x0 y0 x1 y1 : Int) : Surface × Except String Unit :=
  if !(is_in_x_range s x0) || !(is_in_x_range s x1)
      || !(is_in_y_range s y0) || !(is_in_y_range s y1) then
    (s, Except.error "Out of Range")
  else
    draw_line_loop color x0 y0 (x1 - x0).sign (y1 - y0).sign s (line_points x0 y0 x1 y1)

/-! ### Infrastructure lemmas -/

@[simp]
theorem unchecked_draw_point_width (s : Surface) (c : Nat) (x y : Int) :
    (unchecked_draw_point s c x y).width = s.width := rfl

@[simp]
theorem unchecked_draw_point_height (s : Surface) (c : Nat) (x y : Int) :
    (unchecked_draw_point s c x y).height = s.height := rfl

@[simp]
theorem unchecked_draw_point_ppl (s : Surface) (c : Nat) (x y : Int) :
    (unchecked_draw_point s c x y).pixels_per_line = s.pixels_per_line := rfl

@[simp]
theorem is_in_x_range_unchecked (s : Surface) (c : Nat) (x y a : Int) :
    is_in_x_range (unchecked_draw_point s c x y) a = is_in_x_range s a := rfl

@[simp]
theorem is_in_y_range_unchecked (s : Surface) (c : Nat) (x y a : Int) :
    is_in_y_range (unchecked_draw_point s c x y) a = is_in_y_range s a := rfl

theorem is_in_x_range_iff (s : Surface) (px : Int) :
    is_in_x_range s px = true ↔ 0 ≤ px ∧ px < min s.width s.pixels_per_line := by
  simp [is_in_x_range]

theorem is_in_y_range_iff (s : Surface) (py : Int) :
    is_in_y_range s py = true ↔ 0 ≤ py ∧ py < s.height := by
  simp [is_in_y_range]

theorem mem_intRangeAux {a : Int} : ∀ (n : Nat) (b : Int),
    a ∈ intRangeAux n b ↔ b ≤ a ∧ a < b + n
  | 0, b => by simp [intRangeAux]
  | n + 1, b => by
    simp only [intRangeAux, List.mem_cons, mem_intRangeAux n (b + 1)]
    omega

theorem mem_intRange {a lo hi : Int} : a ∈ intRange lo hi ↔ lo ≤ a ∧ a < hi := by
  rw [intRange, mem_intRangeAux]
  omega

/-- Write `c` at each word index of `os` in turn. -/
def writeMany (c : Nat) (os : List Int) (b : Int → Nat) : Int → Nat :=
  os.foldl (fun b o => fun i => if i = o then c else b i) b

theorem writeMany_apply (c : Nat) (i : Int) :
    ∀ (os : List Int) (b : Int → Nat),
      writeMany c os b i = if i ∈ os then c else b i
  | [], b => by simp [writeMany]
  | o :: os, b => by
    simp only [writeMany, List.foldl_cons, List.mem_cons]
    rw [show (List.foldl (fun b o => fun i => if i = o then c else b i)
      (fun i => if i = o then c else b i) os) = writeMany c os (fun i => if i = o then c else b i) from rfl]
    rw [writeMany_apply c i os]
    by_cases h1 : i ∈ os <;> by_cases h2 : i = o <;> simp [h1, h2]

/-- Plot a list of coordinate pairs through the unchecked fast path. -/
def writePoints (color : Nat) (pts : List (Int × Int)) (s : Surface) : Surface :=
  pts.foldl (fun s p => unchecked_draw_point s color p.1 p.2) s

@[simp]
theorem writePoints_width (color : Nat) : ∀ (pts : List (Int × Int)) (s : Surface),
    (writePoints color pts s).width = s.width
  | [], _ => rfl
  | _ :: ps, _ => writePoints_width color ps _

@[simp]
theorem writePoints_height (color : Nat) : ∀ (pts : List (Int × Int)) (s : Surface),
    (writePoints color pts s).height = s.height
  | [], _ => rfl
  | _ :: ps, _ => writePoints_height color ps _

@[simp]
theorem writePoints_ppl (color : Nat) : ∀ (pts : List (Int × Int)) (s : Surface),
    (writePoints color pts s).pixels_per_line = s.pixels_per_line
  | [], _ => rfl
  | _ :: ps, _ => writePoints_ppl color ps _

theorem writePoints_buf (color : Nat) : ∀ (pts : List (Int × Int)) (s : Surface),
    (writePoints color pts s).buf
      = writeMany color (pts.map (fun p => p.2 * s.pixels_per_line + p.1)) s.buf
  | [], s => rfl
  | p :: ps, s => by
    simp only [writePoints, List.foldl_cons, List.map_cons, writeMany, List.foldl_cons]
    exact writePoints_buf color ps (unchecked_draw_point s color p.1 p.2)

theorem writePoints_pixel (color : Nat) (pts : List (Int × Int)) (s : Surface) (qx qy : Int) :
    (writePoints color pts s).pixel qx qy
      = if (qy * s.pixels_per_line + qx) ∈ pts.map (fun p => p.2 * s.pixels_per_line + p.1)
        then color else s.pixel qx qy := by
  rw [Surface.pixel, writePoints_buf, writePoints_ppl, writeMany_apply, Surface.pixel]

/-- Word indices of distinct in-row coordinates never collide. -/
theorem offset_inj {p a b y y2 : Int} (ha : 0 ≤ a) (ha2 : a < p) (hb : 0 ≤ b) (hb2 : b < p) :
    y * p + a = y2 * p + b ↔ y = y2 ∧ a = b := by
  constructor
  · intro h
    have hp : p ≠ 0 := by omega
    have h1 : (a + y * p) / p = (b + y2 * p) / p := by rw [show a + y * p = y * p + a by ring,
      show b + y2 * p = y2 * p + b by ring, h]
    rw [Int.add_mul_ediv_right a y hp, Int.add_mul_ediv_right b y2 hp,
      Int.ediv_eq_zero_of_lt ha ha2, Int.ediv_eq_zero_of_lt hb hb2] at h1
    constructor
    · omega
    · have : y = y2 := by omega
      rw [this] at h
      omega
  · rintro ⟨rfl, rfl⟩
    rfl

theorem inner_row_eq (c : Nat) (y : Int) (xs : List Int) (s : Surface) :
    xs.foldl (fun s x => unchecked_draw_point s c x y) s
      = writePoints c (xs.map (fun x => (x, y))) s := by
  rw [writePoints, List.foldl_map]

theorem rows_eq (c : Nat) (xs : List Int) : ∀ (ys : List Int) (s : Surface),
    ys.foldl (fun s y => xs.foldl (fun s x => unchecked_draw_point s c x y) s) s
      = writePoints c (ys.flatMap (fun y => xs.map (fun x => (x, y)))) s
  | [], _ => rfl
  | y :: ys, s => by
    simp only [List.foldl_cons, List.flatMap_cons]
    rw [inner_row_eq, rows_eq c xs ys, writePoints, writePoints, writePoints, List.foldl_append]

/-- On passing both corner checks, `fill_rect` succeeds and is the plot of
the whole rectangle through the unchecked fast path. -/
theorem fill_rect_ok_eq (s : Surface) (c : Nat) (px py w h : Int)
    (h1 : is_in_x_range s px = true) (h2 : is_in_y_range s py = true)
    (h3 : is_in_x_range s (px + w - 1) = true) (h4 : is_in_y_range s (py + h - 1) = true) :
    fill_rect s c px py w h
      = (writePoints c ((intRange py (py + h)).flatMap
          (fun y => (intRange px (px + w)).map (fun x => (x, y)))) s, Except.ok ()) := by
  rw [fill_rect, if_neg, rows_eq]
  simp [h1, h2, h3, h4]

theorem mem_rect_offsets {o px py w h p : Int} {xs ys : List Int}
    (hxs : xs = intRange px (px + w)) (hys : ys = intRange py (py + h)) :
    (o ∈ (ys.flatMap (fun y => xs.map (fun x => (x, y)))).map (fun q => q.2 * p + q.1)
      ↔ ∃ qy qx, py ≤ qy ∧ qy < py + h ∧ px ≤ qx ∧ qx < px + w ∧ o = qy * p + qx) := by
  subst hxs hys
  simp only [List.mem_map, List.mem_flatMap, mem_intRange]
  constructor
  · rintro ⟨q, ⟨qy', hqy, qx', hqx, rfl⟩, rfl⟩
    exact ⟨qy', qx', hqy.1, hqy.2, hqx.1, hqx.2, rfl⟩
  · rintro ⟨qy, qx, h1, h2, h3, h4, rfl⟩
    exact ⟨(qx, qy), ⟨qy, ⟨h1, h2⟩, qx, ⟨h3, h4⟩, rfl⟩, rfl⟩

/-- C4, fill_rect half: a failed corner check returns the error with the
surface untouched. -/
theorem fill_rect_err (s : Surface) (c : Nat) (px py w h : Int)
    (hfail : is_in_x_range s px = false ∨ is_in_y_range s py = false
      ∨ is_in_x_range s (px + w - 1) = false ∨ is_in_y_range s (py + h - 1) = false) :
    fill_rect s c px py w h = (s, Except.error "Out of Range") := by
  rw [fill_rect, if_pos]
  rcases hfail with h | h | h | h <;> simp [h]

/-- C4, draw_line half: a failed endpoint check returns the error with the
surface untouched. -/
theorem draw_line_err (s : Surface) (c : Nat) (x0 y0 x1 y1 : Int)
    (hfail : is_in_x_range s x0 = false ∨ is_in_x_range s x1 = false
      ∨ is_in_y_range s y0 = false ∨ is_in_y_range s y1 = false) :
    draw_line s c x0 y0 x1 y1 = (s, Except.error "Out of Range") := by
  rw [draw_line, if_pos]
  rcases hfail with h | h | h | h <;> simp [h]

/-- A concrete 4×4 surface, zero-initialized, for witnesses. -/
def demoSurface : Surface :=
  { width := 4, height := 4, pixels_per_line := 4, buf := fun _ => 0 }

/-- C4: `fillRect` and `drawLine` are atomic on bounds failure — when any
rectangle corner (for `fillRect`) or any of the four endpoint coordinates
(for `drawLine`) fails the range checks, the operation returns the bounds
error and the surface is returned exactly as it was (no partial
mutation). -/
theorem fill_rect_draw_line_atomic_on_bounds_failure
    (s : Surface) (c : Nat) (px py w h x0 y0 x1 y1 : Int) :
    ((is_in_x_range s px = false ∨ is_in_y_range s py = false
        ∨ is_in_x_range s (px + w - 1) = false ∨ is_in_y_range s (py + h - 1) = false) →
      fill_rect s c px py w h = (s, Except.error "Out of Range"))
    ∧ ((is_in_x_range s x0 = false ∨ is_in_x_range s x1 = false
        ∨ is_in_y_range s y0 = false ∨ is_in_y_range s y1 = false) →
      draw_line s c x0 y0 x1 y1 = (s, Except.error "Out of Range")) :=
  ⟨fill_rect_err s c px py w h, draw_line_err s c x0 y0 x1 y1⟩

/-- Witness for C4 at a concrete out-of-bounds call on the 4×4 surface. -/
theorem fill_rect_draw_line_atomic_on_bounds_failure_witness :
    fill_rect demoSurface 5 9 0 2 2 = (demoSurface, Except.error "Out of Range")
    ∧ draw_line demoSurface 5 9 0 1 1 = (demoSurface, Except.error "Out of Range") :=
  ⟨(fill_rect_draw_line_atomic_on_bounds_failure demoSurface 5 9 0 2 2 9 0 1 1).1
      (Or.inl (by decide)),
   (fill_rect_draw_line_atomic_on_bounds_failure demoSurface 5 9 0 2 2 9 0 1 1).2
      (Or.inl (by decide))⟩

/-- C5: when `fillRect` succeeds, every pixel of `[x,x+w)×[y,y+h)` holds
`color`, and every addressable pixel outside that rectangle holds its
previous value. -/
theorem fill_rect_success_cover_and_frame
    (s : Surface) (c : Nat) (px py w h : Int) (s' : Surface)
    (hok : fill_rect s c px py w h = (s', Except.ok ())) :
    (∀ qx qy, px ≤ qx → qx < px + w → py ≤ qy → qy < py + h → s'.pixel qx qy = c)
    ∧ (∀ qx qy, is_in_x_range s qx = true → is_in_y_range s qy = true →
        ¬(px ≤ qx ∧ qx < px + w ∧ py ≤ qy ∧ qy < py + h) →
        s'.pixel qx qy = s.pixel qx qy) := by
  have h1 : is_in_x_range s px = true := by
    by_contra hf
    rw [Bool.not_eq_true] at hf
    rw [fill_rect_err s c px py w h (Or.inl hf)] at hok
    simp at hok
  have h2 : is_in_y_range s py = true := by
    by_contra hf
    rw [Bool.not_eq_true] at hf
    rw [fill_rect_err s c px py w h (Or.inr (Or.inl hf))] at hok
    simp at hok
  have h3 : is_in_x_range s (px + w - 1) = true := by
    by_contra hf
    rw [Bool.not_eq_true] at hf
    rw [fill_rect_err s c px py w h (Or.inr (Or.inr (Or.inl hf)))] at hok
    simp at hok
  have h4 : is_in_y_range s (py + h - 1) = true := by
    by_contra hf
    rw [Bool.not_eq_true] at hf
    rw [fill_rect_err s c px py w h (Or.inr (Or.inr (Or.inr hf)))] at hok
    simp at hok
  rw [fill_rect_ok_eq s c px py w h h1 h2 h3 h4] at hok
  have hs' : s' = writePoints c ((intRange py (py + h)).flatMap
      (fun y => (intRange px (px + w)).map (fun x => (x, y)))) s :=
    ((Prod.ext_iff.mp hok).1).symm
  subst hs'
  constructor
  · intro qx qy hx1 hx2 hy1 hy2
    rw [writePoints_pixel, if_pos]
    exact (mem_rect_offsets rfl rfl).mpr ⟨qy, qx, hy1, hy2, hx1, hx2, rfl⟩
  · intro qx qy hqx hqy hout
    rw [writePoints_pixel, if_neg]
    intro hmem
    obtain ⟨qy', qx', ha, hb, hc', hd, heq⟩ := (mem_rect_offsets rfl rfl).mp hmem
    have hpx := (is_in_x_range_iff s px).mp h1
    have hpw := (is_in_x_range_iff s (px + w - 1)).mp h3
    have hqxr := (is_in_x_range_iff s qx).mp hqx
    have hm1 : qx < s.pixels_per_line := (lt_min_iff.mp hqxr.2).2
    have hm2 : px + w - 1 < s.pixels_per_line := (lt_min_iff.mp hpw.2).2
    have hinj := (offset_inj hqxr.1 hm1 (by omega) (by omega)).mp heq
    exact hout ⟨by omega, by omega, by omega, by omega⟩

/-- Witness for C5: fill the 2×2 block at (1,1) of the 4×4 surface with
color 9; the pixel (1,2) inside is 9 and the pixel (0,0) outside keeps 0. -/
theorem fill_rect_success_cover_and_frame_witness :
    ((fill_rect demoSurface 9 1 1 2 2).1).pixel 1 2 = 9
    ∧ ((fill_rect demoSurface 9 1 1 2 2).1).pixel 0 0 = demoSurface.pixel 0 0 :=
  ⟨(fill_rect_success_cover_and_frame demoSurface 9 1 1 2 2
      (fill_rect demoSurface 9 1 1 2 2).1 rfl).1 1 2
      (by decide) (by decide) (by decide) (by decide),
   (fill_rect_success_cover_and_frame demoSurface 9 1 1 2 2
      (fill_rect demoSurface 9 1 1 2 2).1 rfl).2 0 0
      (by decide) (by decide) (by decide)⟩

/-! ### Slope interpolation -/

/-- For a valid call shape (`0 ≤ db ≤ da`, `0 < da`, `0 ≤ ia ≤ da`) the
truncating two-step division of the source equals floor division by `2·da`,
and the result lies in `[0, db]`. -/
theorem calc_slope_point_spec (da db ia : Int) (hdb : 0 ≤ db) (hba : db ≤ da)
    (h0 : 0 < da) (hia : 0 ≤ ia) (hia2 : ia ≤ da) :
    calc_slope_point da db ia = some ((2 * db * ia + da) / (2 * da))
    ∧ 0 ≤ (2 * db * ia + da) / (2 * da)
    ∧ (2 * db * ia + da) / (2 * da) ≤ db := by
  have hN : 0 ≤ 2 * db * ia + da := by
    have := mul_nonneg (mul_nonneg (by norm_num : (0:Int) ≤ 2) hdb) hia
    omega
  have e1 : Int.tdiv (2 * db * ia + da) da = (2 * db * ia + da) / da :=
    Int.tdiv_eq_ediv hN (le_of_lt h0)
  have e2 : Int.tdiv ((2 * db * ia + da) / da) 2 = (2 * db * ia + da) / da / 2 :=
    Int.tdiv_eq_ediv (Int.ediv_nonneg hN (le_of_lt h0)) (by norm_num)
  have e3' : ∀ (n d : Nat), ((n : Int) / (d : Int)) / 2 = (n : Int) / (2 * (d : Int)) := by
    intro n d
    norm_cast
    rw [Nat.div_div_eq_div_mul, mul_comm]
  have e3 : (2 * db * ia + da) / da / 2 = (2 * db * ia + da) / (2 * da) := by
    obtain ⟨n, hn⟩ := Int.eq_ofNat_of_zero_le hN
    obtain ⟨d, hd⟩ := Int.eq_ofNat_of_zero_le (le_of_lt h0)
    rw [hn, hd]
    exact e3' n d
  have hval : calc_slope_point da db ia = some ((2 * db * ia + da) / (2 * da)) := by
    rw [calc_slope_point, if_neg (by omega), if_neg (by omega), if_pos ⟨hia, hia2⟩, e1, e2, e3]
  refine ⟨hval, Int.ediv_nonneg hN (by omega), ?_⟩
  have h2da : (0:Int) < 2 * da := by omega
  have hmul : 2 * db * ia ≤ 2 * db * da :=
    mul_le_mul_of_nonneg_left hia2 (by omega : (0:Int) ≤ 2 * db)
  have hlt : (2 * db * ia + da) / (2 * da) < db + 1 := by
    rw [Int.ediv_lt_iff_lt_mul h2da]
    nlinarith
  omega

/-- Floor bounds for the slope value: it rounds `db·ia / da` to the nearest
integer with ties up. -/
theorem calc_slope_point_round (da db ia : Int) (hdb : 0 ≤ db) (hba : db ≤ da)
    (h0 : 0 < da) (hia : 0 ≤ ia) (hia2 : ia ≤ da) :
    da * (2 * ((2 * db * ia + da) / (2 * da)) - 1) ≤ 2 * (db * ia)
    ∧ 2 * (db * ia) < da * (2 * ((2 * db * ia + da) / (2 * da)) + 1) := by
  have hN : 0 ≤ 2 * db * ia + da := by
    have := mul_nonneg (mul_nonneg (by norm_num : (0:Int) ≤ 2) hdb) hia
    omega
  have h2da : (0:Int) < 2 * da := by omega
  have hdm := Int.ediv_add_emod (2 * db * ia + da) (2 * da)
  have hm1 := Int.emod_nonneg (2 * db * ia + da) (by omega : 2 * da ≠ 0)
  have hm2 := Int.emod_lt_of_pos (2 * db * ia + da) h2da
  constructor <;> nlinarith

/-- Membership in the major-axis point list: index in `[0, da)` paired
with its interpolated slope value. -/
theorem mem_slope_list {da db : Int} {p : Int × Int} :
    p ∈ (intRange 0 da).filterMap
        (fun ra => (calc_slope_point da db ra).map (fun rb => (ra, rb)))
      ↔ 0 ≤ p.1 ∧ p.1 < da ∧ calc_slope_point da db p.1 = some p.2 := by
  obtain ⟨p1, p2⟩ := p
  simp only [List.mem_filterMap, mem_intRange, Option.map_eq_some', Prod.mk.injEq]
  constructor
  · rintro ⟨ra, ⟨h1, h2⟩, rb, hcalc, rfl, rfl⟩
    exact ⟨h1, h2, hcalc⟩
  · rintro ⟨h1, h2, hcalc⟩
    exact ⟨p1, ⟨h1, h2⟩, p2, hcalc, rfl, rfl⟩

/-- `line_points` in the X-major case. -/
theorem mem_line_points_major {x0 y0 x1 y1 : Int} (h : |y1 - y0| ≤ |x1 - x0|) {p : Int × Int} :
    p ∈ line_points x0 y0 x1 y1
      ↔ 0 ≤ p.1 ∧ p.1 < |x1 - x0| ∧ calc_slope_point (|x1 - x0|) (|y1 - y0|) p.1 = some p.2 := by
  rw [line_points]
  simp only [ge_iff_le, if_pos h]
  exact mem_slope_list

/-- `line_points` in the Y-major case. -/
theorem mem_line_points_minor {x0 y0 x1 y1 : Int} (h : ¬(|y1 - y0| ≤ |x1 - x0|)) {p : Int × Int} :
    p ∈ line_points x0 y0 x1 y1
      ↔ 0 ≤ p.2 ∧ p.2 < |y1 - y0| ∧ calc_slope_point (|y1 - y0|) (|x1 - x0|) p.2 = some p.1 := by
  rw [line_points]
  simp only [ge_iff_le, if_neg h]
  obtain ⟨p1, p2⟩ := p
  simp only [List.mem_filterMap, mem_intRange, Option.map_eq_some', Prod.mk.injEq]
  constructor
  · rintro ⟨rb, ⟨h1, h2⟩, ra, hcalc, rfl, rfl⟩
    exact ⟨h1, h2, hcalc⟩
  · rintro ⟨h1, h2, hcalc⟩
    exact ⟨p2, ⟨h1, h2⟩, p1, hcalc, rfl, rfl⟩

/-! ### Line loop lemmas -/

/-- When every pending point passes both range checks, the `?`-propagating
loop succeeds and is a plain plot of all the points. -/
theorem draw_line_loop_ok (color : Nat) (x0 y0 sx sy : Int) :
    ∀ (pts : List (Int × Int)) (s : Surface),
      (∀ p ∈ pts, is_in_x_range s (x0 + p.1 * sx) = true
        ∧ is_in_y_range s (y0 + p.2 * sy) = true) →
      draw_line_loop color x0 y0 sx sy s pts
        = (writePoints color (pts.map (fun p => (x0 + p.1 * sx, y0 + p.2 * sy))) s,
           Except.ok ())
  | [], _, _ => rfl
  | p :: ps, s, hall => by
    have hp := hall p (List.mem_cons_self p ps)
    have hdp : draw_point s color (x0 + p.1 * sx) (y0 + p.2 * sy)
        = (unchecked_draw_point s color (x0 + p.1 * sx) (y0 + p.2 * sy), Except.ok ()) := by
      rw [draw_point, if_pos]
      rw [hp.1, hp.2]
      rfl
    have hrest : ∀ q ∈ ps,
        is_in_x_range (unchecked_draw_point s color (x0 + p.1 * sx) (y0 + p.2 * sy))
          (x0 + q.1 * sx) = true
        ∧ is_in_y_range (unchecked_draw_point s color (x0 + p.1 * sx) (y0 + p.2 * sy))
          (y0 + q.2 * sy) = true := by
      intro q hq
      simpa using hall q (List.mem_cons_of_mem p hq)
    show (match draw_point s color (x0 + p.1 * sx) (y0 + p.2 * sy) with
      | (s', Except.ok _) => draw_line_loop color x0 y0 sx sy s' ps
      | (s', Except.error e) => (s', Except.error e)) = _
    rw [hdp]
    exact draw_line_loop_ok color x0 y0 sx sy ps _ hrest

/-- Same statement for the skip-semantics loop. -/
theorem draw_line_loop_skip_ok (color : Nat) (x0 y0 sx sy : Int) :
    ∀ (pts : List (Int × Int)) (s : Surface),
      (∀ p ∈ pts, is_in_x_range s (x0 + p.1 * sx) = true
        ∧ is_in_y_range s (y0 + p.2 * sy) = true) →
      draw_line_loop_skip color x0 y0 sx sy s pts
        = writePoints color (pts.map (fun p => (x0 + p.1 * sx, y0 + p.2 * sy))) s
  | [], _, _ => rfl
  | p :: ps, s, hall => by
    have hp := hall p (List.mem_cons_self p ps)
    have hdp : draw_point_ignore s color (x0 + p.1 * sx) (y0 + p.2 * sy)
        = unchecked_draw_point s color (x0 + p.1 * sx) (y0 + p.2 * sy) := by
      rw [draw_point_ignore, draw_point, if_pos]
      rw [hp.1, hp.2]
      rfl
    have hrest : ∀ q ∈ ps,
        is_in_x_range (unchecked_draw_point s color (x0 + p.1 * sx) (y0 + p.2 * sy))
          (x0 + q.1 * sx) = true
        ∧ is_in_y_range (unchecked_draw_point s color (x0 + p.1 * sx) (y0 + p.2 * sy))
          (y0 + q.2 * sy) = true := by
      intro q hq
      simpa using hall q (List.mem_cons_of_mem p hq)
    rw [draw_line_loop_skip, hdp]
    exact draw_line_loop_skip_ok color x0 y0 sx sy ps _ hrest

/-- Stepping `r` units along the sign of `t` stays between `0` and `t`. -/
theorem sign_mul_between {t r : Int} (hr : 0 ≤ r) (hr2 : r ≤ |t|) :
    min 0 t ≤ r * t.sign ∧ r * t.sign ≤ max 0 t := by
  rcases lt_trichotomy t 0 with h | h | h
  · rw [Int.sign_eq_neg_one_of_neg h]
    rw [abs_of_neg h] at hr2
    omega
  · subst h
    simp
  · rw [Int.sign_eq_one_of_pos h]
    rw [abs_of_pos h] at hr2
    omega

theorem is_in_x_range_of_between (s : Surface) {a b t : Int}
    (ha : is_in_x_range s a = true) (hb : is_in_x_range s b = true)
    (h1 : min a b ≤ t) (h2 : t ≤ max a b) : is_in_x_range s t = true := by
  rw [is_in_x_range_iff] at *
  omega

theorem is_in_y_range_of_between (s : Surface) {a b t : Int}
    (ha : is_in_y_range s a = true) (hb : is_in_y_range s b = true)
    (h1 : min a b ≤ t) (h2 : t ≤ max a b) : is_in_y_range s t = true := by
  rw [is_in_y_range_iff] at *
  omega

/-- Every point the `draw_line` loop emits lies inside the bounding box of
the two validated endpoints, hence passes both range checks. -/
theorem line_points_in_range (s : Surface) {x0 y0 x1 y1 : Int}
    (hx0 : is_in_x_range s x0 = true) (hx1 : is_in_x_range s x1 = true)
    (hy0 : is_in_y_range s y0 = true) (hy1 : is_in_y_range s y1 = true) :
    ∀ p ∈ line_points x0 y0 x1 y1,
      is_in_x_range s (x0 + p.1 * (x1 - x0).sign) = true
      ∧ is_in_y_range s (y0 + p.2 * (y1 - y0).sign) = true := by
  intro p hp
  by_cases hmaj : |y1 - y0| ≤ |x1 - x0|
  · obtain ⟨h1, h2, hcalc⟩ := (mem_line_points_major hmaj).mp hp
    have hdx : 0 < |x1 - x0| := lt_of_le_of_lt h1 h2
    obtain ⟨hspec, hb1, hb2⟩ := calc_slope_point_spec (|x1 - x0|) (|y1 - y0|) p.1
      (abs_nonneg _) hmaj hdx h1 (le_of_lt h2)
    rw [hspec, Option.some_inj] at hcalc
    rw [hcalc] at hb1 hb2
    have hxbet := sign_mul_between h1 (le_of_lt h2)
    have hybet := sign_mul_between hb1 hb2
    exact ⟨is_in_x_range_of_between s hx0 hx1 (by omega) (by omega),
      is_in_y_range_of_between s hy0 hy1 (by omega) (by omega)⟩
  · obtain ⟨h1, h2, hcalc⟩ := (mem_line_points_minor hmaj).mp hp
    have hdy : 0 < |y1 - y0| := lt_of_le_of_lt h1 h2
    obtain ⟨hspec, hb1, hb2⟩ := calc_slope_point_spec (|y1 - y0|) (|x1 - x0|) p.2
      (abs_nonneg _) (le_of_not_le hmaj) hdy h1 (le_of_lt h2)
    rw [hspec, Option.some_inj] at hcalc
    rw [hcalc] at hb1 hb2
    have hxbet := sign_mul_between hb1 hb2
    have hybet := sign_mul_between h1 (le_of_lt h2)
    exact ⟨is_in_x_range_of_between s hx0 hx1 (by omega) (by omega),
      is_in_y_range_of_between s hy0 hy1 (by omega) (by omega)⟩

/-! ### Claims about `draw_line` validation and the slope function -/

/-- C7: once the four endpoint checks pass, every point emitted by either
major-axis loop itself passes both range checks, and `draw_line` therefore
never returns an error. -/
theorem draw_line_no_point_rejected (s : Surface) (c : Nat) (x0 y0 x1 y1 : Int)
    (hx0 : is_in_x_range s x0 = true) (hx1 : is_in_x_range s x1 = true)
    (hy0 : is_in_y_range s y0 = true) (hy1 : is_in_y_range s y1 = true) :
    (∀ p ∈ line_points x0 y0 x1 y1,
      is_in_x_range s (x0 + p.1 * (x1 - x0).sign) = true
      ∧ is_in_y_range s (y0 + p.2 * (y1 - y0).sign) = true)
    ∧ (draw_line s c x0 y0 x1 y1).2 = Except.ok () := by
  have hall := line_points_in_range s hx0 hx1 hy0 hy1
  refine ⟨hall, ?_⟩
  rw [draw_line, if_neg (by simp [hx0, hx1, hy0, hy1]),
    draw_line_loop_ok c x0 y0 _ _ _ s hall]

/-- Witness for C7 at a concrete valid line on the 4×4 surface. -/
theorem draw_line_no_point_rejected_witness :
    (draw_line demoSurface 1 0 0 3 2).2 = Except.ok () :=
  (draw_line_no_point_rejected demoSurface 1 0 0 3 2
    (by decide) (by decide) (by decide) (by decide)).2

/-- C2: after the endpoint checks pass, every plotted point goes through
the bounds-checked `draw_point` path, and the call behaves exactly as the
skip semantics (a rejected point dropped, the rest plotted, success
returned) — in fact no point is ever rejected, so the two agree. -/
theorem draw_line_skip_semantics (s : Surface) (c : Nat) (x0 y0 x1 y1 : Int)
    (hx0 : is_in_x_range s x0 = true) (hx1 : is_in_x_range s x1 = true)
    (hy0 : is_in_y_range s y0 = true) (hy1 : is_in_y_range s y1 = true) :
    draw_line s c x0 y0 x1 y1
      = (draw_line_loop_skip c x0 y0 (x1 - x0).sign (y1 - y0).sign s
          (line_points x0 y0 x1 y1),
         Except.ok ()) := by
  have hall := line_points_in_range s hx0 hx1 hy0 hy1
  rw [draw_line, if_neg (by simp [hx0, hx1, hy0, hy1]),
    draw_line_loop_ok c x0 y0 _ _ _ s hall,
    draw_line_loop_skip_ok c x0 y0 _ _ _ s hall]

/-- Witness for C2 at a concrete valid line on the 4×4 surface. -/
theorem draw_line_skip_semantics_witness :
    draw_line demoSurface 6 0 0 3 2
      = (draw_line_loop_skip 6 0 0 (3 - 0 : Int).sign (2 - 0 : Int).sign demoSurface
          (line_points 0 0 3 2),
         Except.ok ()) :=
  draw_line_skip_semantics demoSurface 6 0 0 3 2
    (by decide) (by decide) (by decide) (by decide)

/-- C1 counterexample: at the in-bounds degenerate call
`draw_line(demoSurface, 5, 1, 1, 1, 1)` the call succeeds but returns the
surface unchanged — the pixel at `(1, 1)` still holds `0`, not the color
`5` the claim requires. -/
theorem draw_line_degenerate_counterexample :
    draw_line demoSurface 5 1 1 1 1 = (demoSurface, Except.ok ())
    ∧ demoSurface.pixel 1 1 ≠ 5 :=
  ⟨rfl, by decide⟩

/-- C1 (amended): a zero-length line (`x0 == x1`, `y0 == y1`, in bounds)
succeeds and draws nothing at all: the major-axis loop over `0..0` is
empty, so every pixel is unchanged. -/
theorem draw_line_degenerate_draws_nothing (s : Surface) (c : Nat) (x0 y0 : Int)
    (hx : is_in_x_range s x0 = true) (hy : is_in_y_range s y0 = true) :
    draw_line s c x0 y0 x0 y0 = (s, Except.ok ()) := by
  have hpts : line_points x0 y0 x0 y0 = [] := by
    rw [line_points]
    simp [intRange, intRangeAux]
  rw [draw_line, if_neg (by simp [hx, hy]), hpts]
  rfl

/-- Witness for the amended C1 at a concrete degenerate call. -/
theorem draw_line_degenerate_draws_nothing_witness :
    draw_line demoSurface 7 2 2 2 2 = (demoSurface, Except.ok ()) :=
  draw_line_degenerate_draws_nothing demoSurface 7 2 2 (by decide) (by decide)

/-- C3: for `0 ≤ db ≤ da`, `calc_slope_point` returns `0` when `da == 0`,
returns no point when `da > 0` and `ia` is outside `[0, da]`, and otherwise
returns `floor((2·db·ia + da) / (2·da))`, the rational `db·ia/da` rounded
to the nearest integer with ties rounding up (the two inequalities say the
result `r` satisfies `r - 1/2 ≤ db·ia/da < r + 1/2`); the three concrete
spec instances hold as well. -/
theorem calc_slope_point_correct (da db ia : Int) (hdb : 0 ≤ db) (hba : db ≤ da) :
    (da = 0 → calc_slope_point da db ia = some 0)
    ∧ (0 < da → ¬(0 ≤ ia ∧ ia ≤ da) → calc_slope_point da db ia = none)
    ∧ (0 < da → 0 ≤ ia → ia ≤ da →
        calc_slope_point da db ia = some ((2 * db * ia + da) / (2 * da))
        ∧ da * (2 * ((2 * db * ia + da) / (2 * da)) - 1) ≤ 2 * (db * ia)
        ∧ 2 * (db * ia) < da * (2 * ((2 * db * ia + da) / (2 * da)) + 1))
    ∧ (∀ j : Int, 0 ≤ j → j ≤ 10 → calc_slope_point 10 0 j = some 0)
    ∧ calc_slope_point 4 4 2 = some 2
    ∧ calc_slope_point 5 2 5 = some 2 := by
  refine ⟨?_, ?_, ?_, ?_, by decide, by decide⟩
  · intro h
    rw [calc_slope_point, if_neg (by omega), if_pos h]
  · intro h0 hout
    rw [calc_slope_point, if_neg (by omega), if_neg (by omega), if_neg hout]
  · intro h0 h1 h2
    obtain ⟨hspec, -, -⟩ := calc_slope_point_spec da db ia hdb hba h0 h1 h2
    obtain ⟨hr1, hr2⟩ := calc_slope_point_round da db ia hdb hba h0 h1 h2
    exact ⟨hspec, hr1, hr2⟩
  · intro j hj1 hj2
    obtain ⟨hspec, -, -⟩ := calc_slope_point_spec 10 0 j (by omega) (by omega) (by omega) hj1 hj2
    rw [hspec]
    congr 1
    omega

/-- Witness for C3 at `da = 5`, `db = 2`, `ia = 3`:
`(2·2·3 + 5) / 10 = 1`. -/
theorem calc_slope_point_correct_witness :
    calc_slope_point 5 2 3 = some ((2 * 2 * 3 + 5) / (2 * 5)) :=
  ((calc_slope_point_correct 5 2 3 (by decide) (by decide)).2.2.1
    (by decide) (by decide) (by decide)).1

/-! ### Exact pixel effect of `draw_line` -/

/-- Walking `r < |b - a|` units from `a` toward `b` never reaches `b`. -/
theorem step_ne_endpoint {a b r : Int} (h1 : 0 ≤ r) (h2 : r < |b - a|) :
    a + r * (b - a).sign ≠ b := by
  rcases lt_trichotomy (b - a) 0 with h | h | h
  · rw [Int.sign_eq_neg_one_of_neg h]
    rw [abs_of_neg h] at h2
    omega
  · rw [h, Int.sign_zero]
    rw [h, abs_zero] at h2
    omega
  · rw [Int.sign_eq_one_of_pos h]
    rw [abs_of_pos h] at h2
    omega

/-- After a validated `draw_line`, an addressable pixel holds the line
color exactly when some emitted point lands on its coordinates. -/
theorem draw_line_pixel_char (s : Surface) (c : Nat) {x0 y0 x1 y1 : Int}
    (hx0 : is_in_x_range s x0 = true) (hx1 : is_in_x_range s x1 = true)
    (hy0 : is_in_y_range s y0 = true) (hy1 : is_in_y_range s y1 = true)
    (qx qy : Int) (hqx : is_in_x_range s qx = true) (hqy : is_in_y_range s qy = true) :
    ((draw_line s c x0 y0 x1 y1).1).pixel qx qy
      = if ∃ pt ∈ line_points x0 y0 x1 y1,
            x0 + pt.1 * (x1 - x0).sign = qx ∧ y0 + pt.2 * (y1 - y0).sign = qy
        then c else s.pixel qx qy := by
  have hall := line_points_in_range s hx0 hx1 hy0 hy1
  have hdl : draw_line s c x0 y0 x1 y1
      = (writePoints c ((line_points x0 y0 x1 y1).map
          (fun p => (x0 + p.1 * (x1 - x0).sign, y0 + p.2 * (y1 - y0).sign))) s,
         Except.ok ()) := by
    rw [draw_line, if_neg (by simp [hx0, hx1, hy0, hy1]),
      draw_line_loop_ok c x0 y0 _ _ _ s hall]
  rw [hdl, writePoints_pixel]
  refine if_congr ?_ rfl rfl
  rw [List.map_map]
  simp only [List.mem_map, Function.comp]
  have hbq := (is_in_x_range_iff s qx).mp hqx
  have hbqp : qx < s.pixels_per_line := (lt_min_iff.mp hbq.2).2
  constructor
  · rintro ⟨pt, hpt, heq⟩
    obtain ⟨hix, hiy⟩ := hall pt hpt
    have hbx := (is_in_x_range_iff s _).mp hix
    have hbxp : x0 + pt.1 * (x1 - x0).sign < s.pixels_per_line := (lt_min_iff.mp hbx.2).2
    have hinj := (offset_inj hbx.1 hbxp hbq.1 hbqp).mp heq
    exact ⟨pt, hpt, hinj.2, hinj.1⟩
  · rintro ⟨pt, hpt, hxe, hye⟩
    exact ⟨pt, hpt, by rw [hxe, hye]⟩

/-- C6 counterexample: the claim's degenerate carve-out asserts that for
`x0 == x1` the point `(x1, y0)` is painted; at the in-bounds call
`draw_line(demoSurface, 7, 2, 2, 2, 2)` the call succeeds yet the pixel
`(2, 2)` still holds `0`, not `7`. -/
theorem draw_line_horizontal_counterexample :
    draw_line demoSurface 7 2 2 2 2 = (demoSurface, Except.ok ())
    ∧ demoSurface.pixel 2 2 ≠ 7 :=
  ⟨rfl, by decide⟩

/-- C6 (amended): on an in-bounds horizontal segment `draw_line` sets
exactly the pixels `(x, y0)` for `x` strictly between-or-at `x0` and up to
but excluding `x1` (so nothing at all when `x0 == x1`); and for every
in-bounds line, degenerate or not, the final endpoint `(x1, y1)` is never
painted. -/
theorem draw_line_horizontal_and_endpoint (s : Surface) (c : Nat) :
    (∀ x0 y0 x1 qx qy,
      is_in_x_range s x0 = true → is_in_x_range s x1 = true → is_in_y_range s y0 = true →
      is_in_x_range s qx = true → is_in_y_range s qy = true →
      ((draw_line s c x0 y0 x1 y0).1).pixel qx qy
        = if qy = y0 ∧ min x0 x1 ≤ qx ∧ qx ≤ max x0 x1 ∧ qx ≠ x1 then c
          else s.pixel qx qy)
    ∧ (∀ x0 y0 x1 y1,
      is_in_x_range s x0 = true → is_in_x_range s x1 = true →
      is_in_y_range s y0 = true → is_in_y_range s y1 = true →
      ((draw_line s c x0 y0 x1 y1).1).pixel x1 y1 = s.pixel x1 y1) := by
  constructor
  · intro x0 y0 x1 qx qy hx0 hx1 hy0 hqx hqy
    rw [draw_line_pixel_char s c hx0 hx1 hy0 hy0 qx qy hqx hqy]
    refine if_congr ?_ rfl rfl
    have h00 : |y0 - y0| = 0 := by simp
    have hmaj : |y0 - y0| ≤ |x1 - x0| := by
      rw [h00]
      exact abs_nonneg _
    have hs0 : (y0 - y0).sign = 0 := by simp
    constructor
    · rintro ⟨pt, hpt, hxe, hye⟩
      obtain ⟨h1, h2, -⟩ := (mem_line_points_major hmaj).mp hpt
      have hbet := sign_mul_between h1 (le_of_lt h2)
      have hne := step_ne_endpoint h1 h2
      rw [hs0, mul_zero, add_zero] at hye
      refine ⟨hye.symm, by omega, by omega, by rw [← hxe]; exact hne⟩
    · rintro ⟨rfl, hmin, hmax, hne⟩
      have hdx : 0 < |x1 - x0| := by
        rcases lt_trichotomy (x1 - x0) 0 with h | h | h
        · rw [abs_of_neg h]
          omega
        · exfalso
          have : x1 = x0 := by omega
          rw [this] at hne hmax hmin
          omega
        · rw [abs_of_pos h]
          omega
      obtain ⟨r, hr0, hr1, hrx⟩ : ∃ r, 0 ≤ r ∧ r < |x1 - x0| ∧ x0 + r * (x1 - x0).sign = qx := by
        rcases lt_trichotomy (x1 - x0) 0 with h | h | h
        · refine ⟨x0 - qx, ?_, ?_, ?_⟩
          · omega
          · rw [abs_of_neg h]
            omega
          · rw [Int.sign_eq_neg_one_of_neg h]
            omega
        · exfalso
          have : x1 = x0 := by omega
          rw [this] at hne hmax hmin
          omega
        · refine ⟨qx - x0, ?_, ?_, ?_⟩
          · omega
          · rw [abs_of_pos h]
            omega
          · rw [Int.sign_eq_one_of_pos h]
            omega
      obtain ⟨hspec, -, -⟩ := calc_slope_point_spec (|x1 - x0|) 0 r
        (le_refl 0) (abs_nonneg _) hdx hr0 (le_of_lt hr1)
      refine ⟨(r, (2 * 0 * r + |x1 - x0|) / (2 * |x1 - x0|)), ?_, hrx, ?_⟩
      · refine (mem_line_points_major hmaj).mpr ⟨hr0, hr1, ?_⟩
        rw [h00]
        exact hspec
      · rw [hs0, mul_zero, add_zero]
  · intro x0 y0 x1 y1 hx0 hx1 hy0 hy1
    rw [draw_line_pixel_char s c hx0 hx1 hy0 hy1 x1 y1 hx1 hy1, if_neg]
    rintro ⟨pt, hpt, hxe, hye⟩
    by_cases hmaj : |y1 - y0| ≤ |x1 - x0|
    · obtain ⟨h1, h2, -⟩ := (mem_line_points_major hmaj).mp hpt
      exact step_ne_endpoint h1 h2 hxe
    · obtain ⟨h1, h2, -⟩ := (mem_line_points_minor hmaj).mp hpt
      exact step_ne_endpoint h1 h2 hye

/-- Witness for the amended C6: the horizontal segment from (0,1) to (3,1)
paints (2,1) but not the endpoint (3,1). -/
theorem draw_line_horizontal_and_endpoint_witness :
    ((draw_line demoSurface 8 0 1 3 1).1).pixel 2 1 = 8
    ∧ ((draw_line demoSurface 8 0 1 3 1).1).pixel 3 1 = demoSurface.pixel 3 1 := by
  constructor
  · rw [(draw_line_horizontal_and_endpoint demoSurface 8).1 0 1 3 2 1
      (by decide) (by decide) (by decide) (by decide) (by decide)]
    decide
  · exact (draw_line_horizontal_and_endpoint demoSurface 8).2 0 1 3 1
      (by decide) (by decide) (by decide) (by decide)

/-! ### Glyph table (`lookup_font`) and text rendering

`lookup_font` scans the compiled-in text resource `font.txt` (not part of
the sources here, so the scan is parameterized by the resource's text);
the scan algorithm itself is embedded from the source. -/

/-- `char::to_digit(16)`: the value of one hexadecimal digit. -/
def hexDigit (c : Char) : Option Nat :=
  if '0' ≤ c ∧ c ≤ '9' then some (c.toNat - '0'.toNat)
  else if 'a' ≤ c ∧ c ≤ 'f' then some (c.toNat - 'a'.toNat + 10)
  else if 'A' ≤ c ∧ c ≤ 'F' then some (c.toNat - 'A'.toNat + 10)
  else none

/-- The digit-accumulation loop of `u8::from_str_radix(_, 16)`: any
non-digit or an overflow past 255 fails. -/
def hexFold : List Char → Nat → Option Nat
  | [], acc => some acc
  | ch :: rest, acc =>
    match hexDigit ch with
    | none => none
    | some d => if 255 < acc * 16 + d then none else hexFold rest (acc * 16 + d)

/-- `u8::from_str_radix(s, 16)`: an optional leading `+` (a lone sign or a
`-` on an unsigned type fails), then hex digits with overflow checking. -/
def u8_from_str_radix_16 (s : List Char) : Option Nat :=
  match s with
  | [] => none
  | ['+'] => none
  | '+' :: rest => hexFold rest 0
  | _ => hexFold s 0

/-- `str::split('\n')`: the newline-separated pieces of the text, as an
eager list (the source consumes the iterator in order). -/
def split_newlines : List Char → List (List Char)
  | [] => [[]]
  | ch :: rest =>
    match split_newlines rest with
    | r :: rs => if ch = '\n' then [] :: r :: rs else (ch :: r) :: rs
    | [] => [[ch]]

/-- `line.strip_prefix("0x")`. -/
def strip0x (line : List Char) : Option (List Char) :=
  match line with
  | '0' :: 'x' :: rest => some rest
  | _ => none

/-- The character code a glyph-table line announces, if it is a header
(`strip_prefix("0x")` succeeds and the rest parses as a `u8`). -/
def header_code (line : List Char) : Option Nat :=
  match strip0x line with
  | some tail => u8_from_str_radix_16 tail
  | none => none

/-- The 16×8 glyph grid built from the lines following a matched header:
cells default to `'*'` and are overwritten by the up-to-16 following
lines' first 8 characters. -/
def build_font (rest : List (List Char)) : List (List Char) :=
  (List.range 16).map (fun y =>
    (List.range 8).map (fun x =>
      match rest.get? y with
      | some line => (line.get? x).getD '*'
      | none => '*'))

/-- The header-scanning `while let` loop of `lookup_font`. -/
def lookup_font_loop (code : Nat) : List (List Char) → Option (List (List Char))
  | [] => none
  | line :: rest =>
    match strip0x line with
    | some tail =>
      match u8_from_str_radix_16 tail with
      | some idx =>
        if idx = code then some (build_font rest) else lookup_font_loop code rest
      | none => lookup_font_loop code rest
    | none => lookup_font_loop code rest

/-- `lookup_font`: only characters representable as a single byte
(`u8::try_from`) are looked up; the resource is split on newlines and
scanned linearly. -/
def lookup_font (fontSource : String) (c : Char) : Option (List (List Char)) :=
  if c.toNat ≤ 255 then lookup_font_loop c.toNat (split_newlines fontSource.toList) else none

/-- `draw_font_fg`: paint the glyph's lit (`'*'`) cells at their natural
8×16 cell anchored at `(x, y)`, each through the bounds-checked point draw
with its result discarded. -/
def draw_font_fg (fontSource : String) (s : Surface) (x y : Int) (color : Nat) (c : Char) :
    Surface :=
  match lookup_font fontSource c with
  | some font =>
    font.enum.foldl (fun s row =>
      row.2.enum.foldl (fun s px =>
        if px.2 = '*' then draw_point_ignore s color (x + (px.1 : Int)) (y + (row.1 : Int))
        else s) s) s
  | none => s

/-- `VramTextWriter` of `main.rs`: a surface plus a cursor. -/
structure VramTextWriter where
  vram : Surface
  cursor_x : Int
  cursor_y : Int

/-- `VramTextWriter::new`: cursor starts at `(0, 0)`. -/
def VramTextWriter.new (vram : Surface) : VramTextWriter :=
  { vram := vram, cursor_x := 0, cursor_y := 0 }

/-- `fmt::Write::write_str` for `VramTextWriter`: `'\n'` advances the y
cursor by 16 and resets x to 0; any other character is rendered with
`draw_font_fg` in white at the cursor, advancing x by 8; always `Ok`. -/
def write_str (fontSource : String) (w : VramTextWriter) (s : List Char) :
    VramTextWriter × Except String Unit :=
  (s.foldl (fun w c =>
    if c = '\n' then
      { w with cursor_y := w.cursor_y + 16, cursor_x := 0 }
    else
      { vram := draw_font_fg fontSource w.vram w.cursor_x w.cursor_y 0xffffff c,
        cursor_x := w.cursor_x + 8,
        cursor_y := w.cursor_y }) w,
   Except.ok ())

/-! ### Claims about the text writer and glyph lookup -/

/-- C8: a fresh `VramTextWriter` starts at `(0, 0)`; `'\n'` resets x and
advances y by 16; any other character renders its glyph at the cursor (in
white) and advances x by 8; `write_str` always returns `Ok`; and writing
`"AB\nC"` renders `'A'` at `(0,0)`, `'B'` at `(8,0)` and `'C'` at
`(0,16)`. -/
theorem text_writer_behavior :
    (∀ v : Surface, (VramTextWriter.new v).cursor_x = 0 ∧ (VramTextWriter.new v).cursor_y = 0)
    ∧ (∀ (fs : String) (w : VramTextWriter),
        write_str fs w ['\n']
          = ({ w with cursor_x := 0, cursor_y := w.cursor_y + 16 }, Except.ok ()))
    ∧ (∀ (fs : String) (w : VramTextWriter) (c : Char), c ≠ '\n' →
        write_str fs w [c]
          = ({ vram := draw_font_fg fs w.vram w.cursor_x w.cursor_y 0xffffff c,
               cursor_x := w.cursor_x + 8, cursor_y := w.cursor_y }, Except.ok ()))
    ∧ (∀ (fs : String) (w : VramTextWriter) (s : List Char),
        (write_str fs w s).2 = Except.ok ())
    ∧ (∀ (fs : String) (v : Surface),
        write_str fs (VramTextWriter.new v) "AB\nC".toList
          = ({ vram := draw_font_fg fs
                 (draw_font_fg fs (draw_font_fg fs v 0 0 0xffffff 'A') 8 0 0xffffff 'B')
                 0 16 0xffffff 'C',
               cursor_x := 8, cursor_y := 16 }, Except.ok ())) := by
  refine ⟨fun v => ⟨rfl, rfl⟩, fun fs w => rfl, ?_, fun fs w s => rfl, fun fs v => rfl⟩
  intro fs w c hc
  simp only [write_str, List.foldl_cons, List.foldl_nil, if_neg hc]

/-- Witness for C8: writing `'Z'` from a fresh writer on the 4×4 surface
renders its glyph at `(0, 0)` and moves the cursor to `(8, 0)`. -/
theorem text_writer_behavior_witness :
    write_str "" (VramTextWriter.new demoSurface) ['Z']
      = ({ vram := draw_font_fg "" demoSurface 0 0 0xffffff 'Z',
           cursor_x := 8, cursor_y := 0 }, Except.ok ()) :=
  text_writer_behavior.2.2.1 "" (VramTextWriter.new demoSurface) 'Z' (by decide)

theorem lookup_font_loop_none (code : Nat) :
    ∀ lines : List (List Char),
      (∀ l ∈ lines, header_code l ≠ some code) → lookup_font_loop code lines = none
  | [], _ => rfl
  | line :: rest, hall => by
    have h0 := hall line (List.mem_cons_self line rest)
    have ih := lookup_font_loop_none code rest (fun l hl => hall l (List.mem_cons_of_mem line hl))
    rw [lookup_font_loop]
    cases hs : strip0x line with
    | none =>
      dsimp only
      exact ih
    | some tail =>
      dsimp only
      cases hu : u8_from_str_radix_16 tail with
      | none =>
        dsimp only
        exact ih
      | some idx =>
        dsimp only
        rw [if_neg]
        · exact ih
        · intro heq
          refine h0 ?_
          simp only [header_code, hs, hu, heq]

theorem lookup_font_loop_found (code : Nat) :
    ∀ (pre : List (List Char)) (header : List Char) (post : List (List Char)),
      (∀ l ∈ pre, header_code l ≠ some code) →
      header_code header = some code →
      lookup_font_loop code (pre ++ header :: post) = some (build_font post)
  | [], header, post, _, hh => by
    rw [List.nil_append, lookup_font_loop]
    cases hs : strip0x header with
    | none =>
      simp only [header_code, hs] at hh
      exact Option.noConfusion hh
    | some tail =>
      dsimp only
      cases hu : u8_from_str_radix_16 tail with
      | none =>
        simp only [header_code, hs, hu] at hh
        exact Option.noConfusion hh
      | some idx =>
        dsimp only
        simp only [header_code, hs, hu, Option.some_inj] at hh
        rw [if_pos hh]
  | l :: pre, header, post, hpre, hh => by
    have h0 := hpre l (List.mem_cons_self l pre)
    have ih := lookup_font_loop_found code pre header post
      (fun q hq => hpre q (List.mem_cons_of_mem l hq)) hh
    rw [List.cons_append, lookup_font_loop]
    cases hs : strip0x l with
    | none =>
      dsimp only
      exact ih
    | some tail =>
      dsimp only
      cases hu : u8_from_str_radix_16 tail with
      | none =>
        dsimp only
        exact ih
      | some idx =>
        dsimp only
        rw [if_neg]
        · exact ih
        · intro heq
          refine h0 ?_
          simp only [header_code, hs, hu, heq]

/-- C9: `lookup_font` yields a glyph only for single-byte-representable
characters — any character beyond `0xFF` resolves to `none` (and the
lookup is a total function, so it cannot crash); a single-byte character
whose code heads no block of the table also resolves to `none`; and a code
whose first matching header is found returns the grid built from the 16
lines after that header. -/
theorem lookup_font_correct (fs : String) (c : Char) :
    (255 < c.toNat → lookup_font fs c = none)
    ∧ (c.toNat ≤ 255 →
        (∀ l ∈ split_newlines fs.toList, header_code l ≠ some c.toNat) →
        lookup_font fs c = none)
    ∧ (∀ pre header post, c.toNat ≤ 255 →
        split_newlines fs.toList = pre ++ header :: post →
        (∀ l ∈ pre, header_code l ≠ some c.toNat) →
        header_code header = some c.toNat →
        lookup_font fs c = some (build_font post)) := by
  refine ⟨?_, ?_, ?_⟩
  · intro h
    rw [lookup_font, if_neg (by omega)]
  · intro h hall
    rw [lookup_font, if_pos h]
    exact lookup_font_loop_none _ _ hall
  · intro pre header post h hsplit hpre hh
    rw [lookup_font, if_pos h, hsplit]
    exact lookup_font_loop_found _ pre header post hpre hh

/-- Witness for C9: looking up `'A'` (code 0x41) in a two-line table with
header `0x41` returns the grid built from the following line; looking up a
multi-byte character in the same table yields no glyph. -/
theorem lookup_font_correct_witness :
    lookup_font "0x41\nabc" 'A' = some (build_font [['a', 'b', 'c']])
    ∧ lookup_font "0x41\nabc" 'Ā' = none :=
  ⟨(lookup_font_correct "0x41\nabc" 'A').2.2 [] ['0', 'x', '4', '1'] [['a', 'b', 'c']]
      (by decide) (by decide) (by simp) (by decide),
   (lookup_font_correct "0x41\nabc" 'Ā').1 (by decide)⟩

/-! ### Frame property of `draw_font_fg` -/

@[simp]
theorem draw_point_ignore_width (s : Surface) (c : Nat) (a b : Int) :
    (draw_point_ignore s c a b).width = s.width := by
  rw [draw_point_ignore, draw_point]
  split <;> rfl

@[simp]
theorem draw_point_ignore_height (s : Surface) (c : Nat) (a b : Int) :
    (draw_point_ignore s c a b).height = s.height := by
  rw [draw_point_ignore, draw_point]
  split <;> rfl

@[simp]
theorem draw_point_ignore_ppl (s : Surface) (c : Nat) (a b : Int) :
    (draw_point_ignore s c a b).pixels_per_line = s.pixels_per_line := by
  rw [draw_point_ignore, draw_point]
  split <;> rfl

@[simp]
theorem is_in_x_range_ignore (s : Surface) (c : Nat) (a b q : Int) :
    is_in_x_range (draw_point_ignore s c a b) q = is_in_x_range s q := by
  rw [is_in_x_range, is_in_x_range, draw_point_ignore_width, draw_point_ignore_ppl]

@[simp]
theorem is_in_y_range_ignore (s : Surface) (c : Nat) (a b q : Int) :
    is_in_y_range (draw_point_ignore s c a b) q = is_in_y_range s q := by
  rw [is_in_y_range, is_in_y_range, draw_point_ignore_height]

theorem is_in_x_range_eq_of_geom {s t : Surface} (hw : t.width = s.width)
    (hp : t.pixels_per_line = s.pixels_per_line) (q : Int) :
    is_in_x_range t q = is_in_x_range s q := by
  rw [is_in_x_range, is_in_x_range, hw, hp]

theorem is_in_y_range_eq_of_geom {s t : Surface} (hh : t.height = s.height) (q : Int) :
    is_in_y_range t q = is_in_y_range s q := by
  rw [is_in_y_range, is_in_y_range, hh]

/-- One discarded bounds-checked draw leaves any other addressable pixel
alone (and out-of-range draws leave everything alone). -/
theorem draw_point_ignore_pixel (s : Surface) (color : Nat) (a b qx qy : Int)
    (hqx : is_in_x_range s qx = true) (hqy : is_in_y_range s qy = true)
    (hne : ¬(qx = a ∧ qy = b)) :
    (draw_point_ignore s color a b).pixel qx qy = s.pixel qx qy := by
  rw [draw_point_ignore, draw_point]
  by_cases h : (is_in_x_range s a && is_in_y_range s b) = true
  · rw [if_pos h]
    obtain ⟨ha, hb⟩ := Bool.and_eq_true_iff.mp h
    show (if qy * s.pixels_per_line + qx = b * s.pixels_per_line + a then color
      else s.buf (qy * s.pixels_per_line + qx)) = s.pixel qx qy
    rw [if_neg]
    · rfl
    · intro heq
      have hax := (is_in_x_range_iff s a).mp ha
      have hqxx := (is_in_x_range_iff s qx).mp hqx
      have h1 : a < s.pixels_per_line := (lt_min_iff.mp hax.2).2
      have h2 : qx < s.pixels_per_line := (lt_min_iff.mp hqxx.2).2
      have := (offset_inj hqxx.1 h2 hax.1 h1).mp heq
      exact hne ⟨this.2, this.1⟩
  · rw [if_neg h]

/-- The inner glyph-row fold preserves the surface geometry. -/
theorem glyph_row_geom (color : Nat) (x ydy : Int) :
    ∀ (es : List (Nat × Char)) (s : Surface),
      (es.foldl (fun s e =>
          if e.2 = '*' then draw_point_ignore s color (x + (e.1 : Int)) ydy else s) s).width
        = s.width
      ∧ (es.foldl (fun s e =>
          if e.2 = '*' then draw_point_ignore s color (x + (e.1 : Int)) ydy else s) s).height
        = s.height
      ∧ (es.foldl (fun s e =>
          if e.2 = '*' then draw_point_ignore s color (x + (e.1 : Int)) ydy
          else s) s).pixels_per_line
        = s.pixels_per_line
  | [], _ => ⟨rfl, rfl, rfl⟩
  | e :: es, s => by
    simp only [List.foldl_cons]
    obtain ⟨ih1, ih2, ih3⟩ := glyph_row_geom color x ydy es
      (if e.2 = '*' then draw_point_ignore s color (x + (e.1 : Int)) ydy else s)
    refine ⟨ih1.trans ?_, ih2.trans ?_, ih3.trans ?_⟩
    · split <;> simp
    · split <;> simp
    · split <;> simp

/-- The inner glyph-row fold leaves every addressable pixel outside the
row's lit cells unchanged. -/
theorem glyph_row_frame (color : Nat) (x ydy qx qy : Int) :
    ∀ (es : List (Nat × Char)) (s : Surface),
      is_in_x_range s qx = true → is_in_y_range s qy = true →
      (∀ e ∈ es, e.2 = '*' → ¬(qx = x + (e.1 : Int) ∧ qy = ydy)) →
      (es.foldl (fun s e =>
          if e.2 = '*' then draw_point_ignore s color (x + (e.1 : Int)) ydy else s) s).pixel qx qy
        = s.pixel qx qy
  | [], _, _, _, _ => rfl
  | e :: es, s, hqx, hqy, hall => by
    simp only [List.foldl_cons]
    have hstep : ∀ t : Surface, t = (if e.2 = '*'
        then draw_point_ignore s color (x + (e.1 : Int)) ydy else s) →
        t.pixel qx qy = s.pixel qx qy
        ∧ is_in_x_range t qx = true ∧ is_in_y_range t qy = true := by
      intro t ht
      subst ht
      by_cases he : e.2 = '*'
      · rw [if_pos he]
        refine ⟨draw_point_ignore_pixel s color _ _ qx qy hqx hqy
          (hall e (List.mem_cons_self e es) he), ?_, ?_⟩
        · rw [is_in_x_range_ignore]
          exact hqx
        · rw [is_in_y_range_ignore]
          exact hqy
      · rw [if_neg he]
        exact ⟨rfl, hqx, hqy⟩
    obtain ⟨hpix, hx, hy⟩ := hstep _ rfl
    rw [glyph_row_frame color x ydy qx qy es _ hx hy
      (fun q hq => hall q (List.mem_cons_of_mem e hq)), hpix]

/-- The outer glyph fold (rows) leaves every addressable pixel outside all
lit cells unchanged. -/
theorem glyph_rows_frame (color : Nat) (x y qx qy : Int) :
    ∀ (rows : List (Nat × List Char)) (s : Surface),
      is_in_x_range s qx = true → is_in_y_range s qy = true →
      (∀ r ∈ rows, ∀ e ∈ r.2.enum, e.2 = '*' → ¬(qx = x + (e.1 : Int) ∧ qy = y + (r.1 : Int))) →
      (rows.foldl (fun s r => r.2.enum.foldl (fun s e =>
          if e.2 = '*' then draw_point_ignore s color (x + (e.1 : Int)) (y + (r.1 : Int))
          else s) s) s).pixel qx qy
        = s.pixel qx qy
  | [], _, _, _, _ => rfl
  | r :: rows, s, hqx, hqy, hall => by
    simp only [List.foldl_cons]
    obtain ⟨hw, hh, hp⟩ := glyph_row_geom color x (y + (r.1 : Int)) r.2.enum s
    have hpix := glyph_row_frame color x (y + (r.1 : Int)) qx qy r.2.enum s hqx hqy
      (hall r (List.mem_cons_self r rows))
    rw [glyph_rows_frame color x y qx qy rows _
      (by rw [is_in_x_range_eq_of_geom hw hp]; exact hqx)
      (by rw [is_in_y_range_eq_of_geom hh]; exact hqy)
      (fun q hq => hall q (List.mem_cons_of_mem r hq)), hpix]

/-- C10: `draw_font_fg` changes nothing when the character has no glyph,
and otherwise leaves every addressable pixel that is not under a lit
(`'*'`) cell of the glyph — anchored at `(x, y)` — unchanged; lit cells
falling outside the surface are dropped by the bounds-checked point draw,
and no error is ever returned (the function is total into `Surface`). -/
theorem draw_font_fg_frame (fs : String) (s : Surface) (x y : Int) (color : Nat) (c : Char) :
    (lookup_font fs c = none → draw_font_fg fs s x y color c = s)
    ∧ (∀ font, lookup_font fs c = some font →
        ∀ qx qy, is_in_x_range s qx = true → is_in_y_range s qy = true →
        (∀ dy dx (row : List Char), font.get? dy = some row → row.get? dx = some '*' →
          ¬(qx = x + (dx : Int) ∧ qy = y + (dy : Int))) →
        (draw_font_fg fs s x y color c).pixel qx qy = s.pixel qx qy) := by
  constructor
  · intro h
    rw [draw_font_fg, h]
  · intro font hfont qx qy hqx hqy hmiss
    rw [draw_font_fg, hfont]
    dsimp only
    refine glyph_rows_frame color x y qx qy font.enum s hqx hqy ?_
    intro r hr e he hlit
    rw [List.mem_enum_iff_getElem?] at hr he
    refine hmiss r.1 e.1 r.2 ?_ ?_
    · rw [List.get?_eq_getElem?]
      exact hr
    · rw [List.get?_eq_getElem?, he, hlit]

/-- Witness for C10: with the single-glyph table for `'A'` whose rows are
`"c*"` (unlit, lit, then all-lit defaults), drawing `'A'` at `(0, 0)` on
the 4×4 surface leaves the pixel under the unlit cell `(0, 0)` unchanged,
and drawing a glyphless character changes nothing. -/
theorem draw_font_fg_frame_witness :
    (draw_font_fg "0x00" demoSurface 0 0 9 'A' = demoSurface)
    ∧ (draw_font_fg "0x41\nc*" demoSurface 0 0 9 'A').pixel 0 0 = demoSurface.pixel 0 0 := by
  constructor
  · exact (draw_font_fg_frame "0x00" demoSurface 0 0 9 'A').1 rfl
  · refine (draw_font_fg_frame "0x41\nc*" demoSurface 0 0 9 'A').2
      (build_font [['c', '*']]) rfl 0 0 (by decide) (by decide) ?_
    intro dy dx row hrow hlit
    rintro ⟨hx, hy⟩
    have hdx : dx = 0 := by omega
    have hdy : dy = 0 := by omega
    subst hdx hdy
    have : row = ['c', '*', '*', '*', '*', '*', '*', '*'] := by
      have hb : (build_font [['c', '*']]).get? 0
          = some ['c', '*', '*', '*', '*', '*', '*', '*'] := by decide
      rw [hb, Option.some_inj] at hrow
      exact hrow.symm
    subst this
    exact absurd hlit (by decide)

end WasabiGraphics
